import Mathlib

/-!
Verification of the request-orchestration core of the Sumat agent runtime.

The TypeScript sources are shallowly embedded as executable Lean
definitions:

* `src/types.ts` — the stream-protocol data model (`Role`, `Message`,
  `ToolCall`, `ToolResult`, `StreamChunk`);
* `src/core/context.ts` — `ContextBuilder.compactMessages`;
* `src/tools/registry.ts` — `ToolRegistry.execute` together with the
  approval wait built in `src/core/agent.ts` (`bus.waitFor` from
  `src/bus/index.ts`);
* `src/providers/failover.ts` — `FailoverManager.chat` / `markUnhealthy`;
* `src/core/subagent.ts` — `SubAgentManager.spawn` and the task
  lifecycle;
* `src/core/agent.ts` — `Agent.processMessage`, the main agent loop.

Effectful parts (network streams, the event bus, timers) are embedded by
explicit data: a backend stream is the list of chunks it would produce,
the approval wait is the arrival time/payload of the response event, and
the 60-second health-reset timer is a recorded (provider, fire-time)
entry.  Thrown JavaScript exceptions are embedded as `Except` values.
-/

/-! ## Data model (src/types.ts) -/

/-- Message roles, `src/types.ts` (`'system' | 'user' | 'assistant' | 'tool'`). -/
inductive Role
  | system
  | user
  | assistant
  | tool
  deriving DecidableEq, Repr

/-- The JS string shown for a role (the `role` field is the string itself). -/
def roleName : Role → String
  | Role.system => "system"
  | Role.user => "user"
  | Role.assistant => "assistant"
  | Role.tool => "tool"

/-- Untyped argument maps (`Record<string, unknown>`) are embedded as
association lists of opaque key/value strings; no claim inspects the
values. -/
def Args : Type := List (String × String)

instance : DecidableEq Args := inferInstanceAs (DecidableEq (List (String × String)))

instance : Repr Args := inferInstanceAs (Repr (List (String × String)))

/-- `ToolCall` from `src/types.ts`. -/
structure ToolCall where
  id : String
  name : String
  arguments : Args
  deriving DecidableEq, Repr

/-- `Message` from `src/types.ts`.  `content` is embedded as the final
string (a `ContentBlock[]` content is serialized by `JSON.stringify`
wherever the core reads it, so only the resulting string matters to the
orchestration core). -/
structure Message where
  role : Role
  content : String
  name : Option String := none
  toolCallId : Option String := none
  toolCalls : Option (List ToolCall) := none
  deriving DecidableEq, Repr

/-- `ToolResult` from `src/types.ts`. -/
structure ToolResult where
  toolCallId : String
  content : String
  isError : Bool := false
  deriving DecidableEq, Repr

/-- The optional `toolCall` payload carried by tool-call stream chunks
(`Partial<ToolCall>` in `src/types.ts`). -/
structure PartialToolCall where
  id : Option String := none
  name : Option String := none
  arguments : Option Args := none
  deriving DecidableEq, Repr

/-- `StreamChunk` from `src/types.ts`: a tagged variant over
`text / tool_call_start / tool_call_delta / tool_call_end / done / error`.
A `text` chunk with an absent `text` field behaves as the empty string
(`chunk.text || ''` in `agent.ts`), so the payload is embedded as the
resulting string. -/
inductive StreamChunk
  | text (s : String)
  | toolCallStart (tc : Option PartialToolCall)
  | toolCallDelta (tc : Option PartialToolCall)
  | toolCallEnd (tc : Option PartialToolCall)
  | done
  | error (e : String)
  deriving DecidableEq, Repr

/-- Is this chunk the `error` variant? -/
def isErrorChunk : StreamChunk → Bool
  | StreamChunk.error _ => true
  | _ => false

/-- Terminal chunks per the backend-adapter contract: `done` and `error`. -/
def isTerminalChunk : StreamChunk → Bool
  | StreamChunk.done => true
  | StreamChunk.error _ => true
  | _ => false

/-- Content chunks: text deltas and tool-call events (what the failover
caller observes as partial output). -/
def isContentChunk : StreamChunk → Bool
  | StreamChunk.text _ => true
  | StreamChunk.toolCallStart _ => true
  | StreamChunk.toolCallDelta _ => true
  | StreamChunk.toolCallEnd _ => true
  | StreamChunk.done => false
  | StreamChunk.error _ => false

/-! ## Context compaction (src/core/context.ts, `compactMessages`)

The summarization callback (`summarize`) is the `async` closure the agent
passes in; it is embedded as a pure `String → String` oracle.  The
`maxTokens` parameter of the TypeScript method is ignored by its body
(the threshold is re-read from `config.agent.compactionThreshold`); the
embedding therefore takes the single `threshold` value. -/

/-- `content.slice(0, 500)`: the first `n` characters of a string. -/
def sliceChars (s : String) (n : Nat) : String := String.mk (s.data.take n)

/-- `messages.reduce((sum, m) => sum + content.length, 0)`. -/
def totalChars (messages : List Message) : Nat :=
  messages.foldl (fun sum m => sum + m.content.length) 0

/-- `Math.ceil(totalChars / 4)` — the cheap token estimate. -/
def estimateTokens (messages : List Message) : Nat :=
  (totalChars messages + 3) / 4

/-- The fixed prompt prefix handed to the summarization call. -/
def summaryPrompt : String :=
  "Summarize this conversation history concisely, preserving key decisions, facts, and context:\n\n"

/-- One transcript line: `[role]: content.slice(0, 500)`. -/
def transcriptLine (m : Message) : String :=
  "[" ++ roleName m.role ++ "]: " ++ sliceChars m.content 500

/-- `ContextBuilder.compactMessages` from `src/core/context.ts`. -/
def compactMessages (messages : List Message) (threshold : Nat)
    (summarize : String → String) : List Message :=
  let estimatedTokens := estimateTokens messages
  if estimatedTokens < threshold then
    messages
  else
    let keepCount := min 10 (messages.length / 3)
    let toSummarize := messages.take (messages.length - keepCount)
    let toKeep := messages.drop (messages.length - keepCount)
    let summaryText := String.intercalate "\n" (toSummarize.map transcriptLine)
    let summary := summarize (summaryPrompt ++ summaryText)
    let summaryMessage : Message :=
      { role := Role.system
        content := "[Conversation summary of " ++ toString toSummarize.length
          ++ " earlier messages]:\n" ++ summary }
    summaryMessage :: toKeep

/-! ## Tool registry & approval gate (src/tools/registry.ts)

The registry map is embedded as a lookup function; the execution context
carries, in place of the live `requestApproval` callback built in
`agent.ts`, the datum that callback consumes: the arrival of the
`approval:response` bus event, as `some (elapsedMs, approved)` or `none`
when no response ever arrives.  A tool body that throws is an
`Except.error` carrying the exception message. -/

/-- `ApprovalLevel` from `src/types.ts`. -/
inductive ApprovalLevel
  | read
  | supervised
  | autonomous
  deriving DecidableEq, Repr

/-- `ToolContext` from `src/types.ts`, with the approval callback
replaced by the response-event arrival it waits on. -/
structure ToolContext where
  sessionId : String
  userId : String
  channelName : String
  workspacePath : String
  approvalArrival : Option (Nat × Bool)

/-- `bus.waitFor(event, timeoutMs)` from `src/bus/index.ts`: resolves
with the event payload if it arrives before the timer fires, otherwise
rejects with a timeout error. -/
def busWaitFor (arrival : Option (Nat × Bool)) (timeoutMs : Nat) : Except String Bool :=
  match arrival with
  | none => Except.error "Timeout waiting for event: approval:response"
  | some (t, approved) =>
      if t < timeoutMs then Except.ok approved
      else Except.error "Timeout waiting for event: approval:response"

/-- The `requestApproval` closure built in `Agent.processMessage`
(`src/core/agent.ts`): awaits `approval:response` for 120 000 ms and
defaults to deny when the wait rejects. -/
def requestApprovalResult (arrival : Option (Nat × Bool)) : Bool :=
  match busWaitFor arrival 120000 with
  | Except.ok approved => approved
  | Except.error _ => false

/-- `ToolDefinition` from `src/types.ts`; `run` is the tool's `execute`,
with a thrown exception embedded as `Except.error message`. -/
structure ToolDef where
  name : String
  description : String
  approvalLevel : ApprovalLevel
  run : Args → ToolContext → Except String ToolResult

/-- The `try { await tool.execute(...) } catch` tail of
`ToolRegistry.execute`. -/
def runTool (fname : String) (tool : ToolDef) (args : Args) (ctx : ToolContext) : ToolResult :=
  match tool.run args ctx with
  | Except.ok r => r
  | Except.error e =>
      { toolCallId := ctx.sessionId
        content := "Error executing tool \"" ++ fname ++ "\": " ++ e
        isError := true }

/-- `ToolRegistry.execute` from `src/tools/registry.ts`.  The second
component records whether the approval gate published a request and
blocked on a response. -/
def executeTool (tools : String → Option ToolDef) (approvalGatesEnabled : Bool)
    (fname : String) (args : Args) (ctx : ToolContext) : ToolResult × Bool :=
  match tools fname with
  | none =>
      ({ toolCallId := ctx.sessionId
         content := "Error: Unknown tool \"" ++ fname ++ "\""
         isError := true }, false)
  | some tool =>
      if approvalGatesEnabled = true ∧ tool.approvalLevel = ApprovalLevel.supervised then
        if requestApprovalResult ctx.approvalArrival then
          (runTool fname tool args ctx, true)
        else
          ({ toolCallId := ctx.sessionId
             content := "Tool \"" ++ fname ++ "\" was denied by user."
             isError := false }, true)
      else
        (runTool fname tool args ctx, false)

/-! ## Agent loop (src/core/agent.ts, `Agent.processMessage`)

Per round the loop asks the failover manager for a chunk stream; the
stream each round would receive is embedded as an oracle `streams :
Nat → List StreamChunk` indexed by the round number, and tool execution
as `exec : ToolCall → ToolResult` (the composition of
`ToolRegistry.execute` with the round's tool context).  Usage tracking
and bus events are side effects with no influence on control flow or on
the session and are not modelled; the `hasToolCalls` flag set on
`tool_call_start` is never read by the source and is likewise dropped. -/

/-- JavaScript truthiness of an optional string field (`undefined` and
`""` are falsy), as used by `chunk.toolCall?.id && chunk.toolCall?.name`. -/
def jsTruthy : Option String → Bool
  | none => false
  | some s => !(s == "")

/-- Finalization of a `tool_call_end` chunk: pushed onto
`pendingToolCalls` exactly when both `id` and `name` are truthy, with
`arguments || {}` defaulting to the empty map. -/
def finalizedCall (tc : Option PartialToolCall) : Option ToolCall :=
  match tc with
  | none => none
  | some p =>
      if jsTruthy p.id ∧ jsTruthy p.name then
        some { id := p.id.getD "", name := p.name.getD "", arguments := p.arguments.getD [] }
      else
        none

/-- What one `for await` pass over the stream accumulates. -/
structure StreamOutcome where
  responseText : String
  pendingToolCalls : List ToolCall
  yielded : List StreamChunk
  errored : Bool
  deriving DecidableEq, Repr

/-- The chunk-consumption `for await` loop of `Agent.processMessage`:
text deltas accumulate into `responseText`, finalized tool calls into
`pendingToolCalls`, every handled chunk is re-yielded, and an `error`
chunk is yielded and aborts the walk immediately. -/
def processStream : List StreamChunk → StreamOutcome
  | [] => { responseText := "", pendingToolCalls := [], yielded := [], errored := false }
  | StreamChunk.error e :: _ =>
      { responseText := "", pendingToolCalls := [], yielded := [StreamChunk.error e],
        errored := true }
  | StreamChunk.text s :: rest =>
      let o := processStream rest
      { o with responseText := s ++ o.responseText, yielded := StreamChunk.text s :: o.yielded }
  | StreamChunk.toolCallStart tc :: rest =>
      let o := processStream rest
      { o with yielded := StreamChunk.toolCallStart tc :: o.yielded }
  | StreamChunk.toolCallDelta tc :: rest =>
      let o := processStream rest
      { o with yielded := StreamChunk.toolCallDelta tc :: o.yielded }
  | StreamChunk.toolCallEnd tc :: rest =>
      let o := processStream rest
      match finalizedCall tc with
      | some call =>
          { o with pendingToolCalls := call :: o.pendingToolCalls,
                   yielded := StreamChunk.toolCallEnd tc :: o.yielded }
      | none => { o with yielded := StreamChunk.toolCallEnd tc :: o.yielded }
  | StreamChunk.done :: rest =>
      let o := processStream rest
      { o with yielded := StreamChunk.done :: o.yielded }

/-- The assistant message saved after a completed stream
(`toolCalls: pendingToolCalls.length > 0 ? pendingToolCalls : undefined`). -/
def assistantMessage (txt : String) (calls : List ToolCall) : Message :=
  { role := Role.assistant
    content := txt
    toolCalls := if calls = [] then none else some calls }

/-- The `if (responseText || pendingToolCalls.length > 0)` guard: the
assistant message is appended only when the round produced something. -/
def assistantBlock (txt : String) (calls : List ToolCall) : List Message :=
  if txt = "" ∧ calls = [] then [] else [assistantMessage txt calls]

/-- The tool-result message appended for one executed tool call
(`role: 'tool'`, `content: result.content`, back-reference ids). -/
def toolResultMessage (exec : ToolCall → ToolResult) (tc : ToolCall) : Message :=
  { role := Role.tool
    content := (exec tc).content
    toolCallId := some tc.id
    name := some tc.name }

/-- Outcome of one round of the agent loop. -/
inductive RoundResult
  | errored (yielded : List StreamChunk)
  | terminal (yielded : List StreamChunk) (appended : List Message)
  | next (yielded : List StreamChunk) (appended : List Message)
  deriving DecidableEq, Repr

/-- One iteration of the `while (turnCount < maxTurns)` body: consume
the stream; on error abort the turn; otherwise save the assistant
message, and either finish (no tool calls) or execute every pending tool
call, appending one tool-result message per call, and go round again. -/
def runRound (chunks : List StreamChunk) (exec : ToolCall → ToolResult) : RoundResult :=
  let o := processStream chunks
  if o.errored then
    RoundResult.errored o.yielded
  else if o.pendingToolCalls = [] then
    RoundResult.terminal o.yielded (assistantBlock o.responseText o.pendingToolCalls)
  else
    RoundResult.next o.yielded
      (assistantBlock o.responseText o.pendingToolCalls
        ++ o.pendingToolCalls.map (toolResultMessage exec))

/-- The informational chunk yielded when the turn budget is exhausted. -/
def maxTurnsNotice : String :=
  "\n\n[Max agent turns reached. Please continue with a new message.]"

/-- The agent loop itself, with `fuel` the remaining turn budget.  The
pair collects the session's message list and the chunks yielded to the
caller. -/
def agentLoop (streams : Nat → List StreamChunk) (exec : ToolCall → ToolResult) :
    Nat → Nat → List Message → List StreamChunk → List Message × List StreamChunk
  | 0, _round, msgs, out => (msgs, out ++ [StreamChunk.text maxTurnsNotice])
  | fuel + 1, round, msgs, out =>
    match runRound (streams round) exec with
    | RoundResult.errored y => (msgs, out ++ y)
    | RoundResult.terminal y app => (msgs ++ app, out ++ y)
    | RoundResult.next y app => agentLoop streams exec fuel (round + 1) (msgs ++ app) (out ++ y)

/-- Entry into `Agent.processMessage` after session lookup: append the
inbound user message and run the loop with the configured budget. -/
def processIncoming (streams : Nat → List StreamChunk) (exec : ToolCall → ToolResult)
    (maxTurns : Nat) (sessionMessages : List Message) (text : String) :
    List Message × List StreamChunk :=
  agentLoop streams exec maxTurns 0
    (sessionMessages ++ [{ role := Role.user, content := text }]) []

/-- Messages a tool-call round appends to the session. -/
def roundAppended (chunks : List StreamChunk) (exec : ToolCall → ToolResult) : List Message :=
  assistantBlock (processStream chunks).responseText (processStream chunks).pendingToolCalls
    ++ (processStream chunks).pendingToolCalls.map (toolResultMessage exec)

/-- Session messages appended by `n` consecutive tool-call rounds
starting at round `start`. -/
def roundsAppended (streams : Nat → List StreamChunk) (exec : ToolCall → ToolResult)
    (start : Nat) : Nat → List Message
  | 0 => []
  | n + 1 => roundAppended (streams start) exec ++ roundsAppended streams exec (start + 1) n

/-- Chunks yielded to the caller by `n` consecutive rounds starting at
round `start`. -/
def roundsYielded (streams : Nat → List StreamChunk) (start : Nat) : Nat → List StreamChunk
  | 0 => []
  | n + 1 => (processStream (streams start)).yielded ++ roundsYielded streams (start + 1) n

/-! ## Failover router (src/providers/failover.ts, `FailoverManager`)

A provider is embedded as its availability flag, the chunk list its
stream would produce for this call, and — when the vendor SDK would
throw during iteration — the exception raised after those chunks.  The
boolean health table (`healthStatus`) is an association list, and the
`setTimeout` cooldown reset is recorded as a pending
`(provider, fireTimeMs)` timer entry. -/

/-- One backend adapter for a fixed call. -/
structure ProviderModel where
  available : Bool
  chunks : List StreamChunk
  thrown : Option String := none
  deriving DecidableEq, Repr

/-- Split a stream at its first `error` chunk (`chunk.type === 'error'`):
the chunks delivered before it, and whether an error chunk occurred. -/
def splitAtError : List StreamChunk → List StreamChunk × Bool
  | [] => ([], false)
  | c :: rest =>
      if isErrorChunk c then ([], true)
      else (c :: (splitAtError rest).1, (splitAtError rest).2)

/-- Result of iterating one provider's stream inside `FailoverManager.chat`:
either the stream completed (`hadError` stays false), or it failed — by
yielding an `error` chunk or by throwing — after delivering `yielded`. -/
inductive StreamRun
  | success (yielded : List StreamChunk)
  | failed (yielded : List StreamChunk)
  deriving DecidableEq, Repr

/-- Iterate one provider's stream: stop at the first `error` chunk; a
throw after the last chunk is the `catch` branch. -/
def providerRun (p : ProviderModel) : StreamRun :=
  let s := splitAtError p.chunks
  if s.2 then
    StreamRun.failed s.1
  else
    match p.thrown with
    | some _ => StreamRun.failed p.chunks
    | none => StreamRun.success p.chunks

/-- The in-memory health table plus the pending cooldown-reset timers. -/
structure HealthState where
  status : List (String × Bool)
  timers : List (String × Nat)
  deriving DecidableEq, Repr

/-- `Map.set` on the health table. -/
def setStatus : List (String × Bool) → String → Bool → List (String × Bool)
  | [], k, v => [(k, v)]
  | (k0, v0) :: rest, k, v =>
      if k0 = k then (k, v) :: rest else (k0, v0) :: setStatus rest k v

/-- `Map.get` on the health table. -/
def lookupStatus : List (String × Bool) → String → Option Bool
  | [], _ => none
  | (k0, v0) :: rest, k => if k0 = k then some v0 else lookupStatus rest k

/-- `Map.delete` on the health table. -/
def removeStatus (m : List (String × Bool)) (k : String) : List (String × Bool) :=
  m.filter (fun p => !(p.1 == k))

/-- `FailoverManager.markUnhealthy`: flag the provider unhealthy and
schedule the health reset 60 000 ms from now. -/
def markUnhealthy (hs : HealthState) (pname : String) (now : Nat) : HealthState :=
  { status := setStatus hs.status pname false
    timers := hs.timers ++ [(pname, now + 60000)] }

/-- The cooldown timer firing: `healthStatus.delete(name)`. -/
def cooldownElapsed (hs : HealthState) (pname : String) : HealthState :=
  { status := removeStatus hs.status pname
    timers := hs.timers.filter (fun t => !(t.1 == pname)) }

/-- The single terminal chunk emitted on a mid-stream failure. -/
def midStreamErrorChunk (pname : String) : StreamChunk :=
  StreamChunk.error ("Provider " ++ pname ++ " failed mid-stream")

/-- The aggregate error emitted when every candidate was exhausted
(`triedProviders.join(', ') || 'none available'`). -/
def allFailedChunk (tried : List String) : StreamChunk :=
  StreamChunk.error ("All providers failed. Tried: "
    ++ (if tried = [] then "none available" else String.intercalate ", " tried)
    ++ ". Check your API keys.")

/-- `FailoverManager.chat`: walk the priority list, skipping missing,
unavailable and unhealthy providers; stream the first candidate; on
failure mark it unhealthy and either move on (nothing yielded yet) or
surface one terminal error chunk (mid-stream).  Returns the final health
state and the chunks yielded to the caller. -/
def failoverChat (providers : String → Option ProviderModel) (now : Nat) :
    List String → HealthState → List String → List StreamChunk →
    HealthState × List StreamChunk
  | [], hs, tried, out => (hs, out ++ [allFailedChunk tried])
  | pname :: rest, hs, tried, out =>
    match providers pname with
    | none => failoverChat providers now rest hs tried out
    | some p =>
      if p.available = false then
        failoverChat providers now rest hs tried out
      else if lookupStatus hs.status pname = some false then
        failoverChat providers now rest hs tried out
      else
        match providerRun p with
        | StreamRun.success ys =>
            ({ hs with status := setStatus hs.status pname true }, out ++ ys)
        | StreamRun.failed ys =>
            if ys = [] then
              failoverChat providers now rest (markUnhealthy hs pname now)
                (tried ++ [pname]) out
            else
              (markUnhealthy hs pname now, out ++ ys ++ [midStreamErrorChunk pname])

/-- The backend-adapter stream contract (§6): at most one terminal
`done`/`error` event, necessarily last. -/
def wellFormedStream : List StreamChunk → Prop
  | [] => True
  | [_] => True
  | c :: c2 :: rest => isTerminalChunk c = false ∧ wellFormedStream (c2 :: rest)

/-- Number of `error` chunks in a list. -/
def countErrorChunks (cs : List StreamChunk) : Nat :=
  (cs.filter isErrorChunk).length

/-! ## Sub-agent supervisor (src/core/subagent.ts, `SubAgentManager`)

`spawn` checks the running count, inserts the task as `pending` and
invokes `executeTask` without awaiting it; `executeTask` sets the status
to `running` synchronously before its first suspension point, so by the
time control returns to any other caller the spawned task is already
`running`.  `applyEvent` therefore performs spawn-and-start as one
atomic step of the cooperative event loop; task completion is a separate
step.  Fresh task ids come from `generateId`, embedded as an id supplied
with the event. -/

/-- `SubAgentTask.status`. -/
inductive TaskStatus
  | pending
  | running
  | completed
  | failed
  deriving DecidableEq, Repr

/-- `SubAgentTask` from `src/core/subagent.ts` (timestamps dropped). -/
structure SubAgentTask where
  id : String
  parentSessionId : String
  description : String
  status : TaskStatus
  result : Option String := none
  error : Option String := none
  deriving DecidableEq, Repr

/-- The supervisor's mutable state: the `activeTasks` map in insertion
order and the concurrency ceiling (`maxConcurrent`, default 3). -/
structure SubAgentState where
  activeTasks : List SubAgentTask
  maxConcurrent : Nat := 3
  deriving DecidableEq, Repr

/-- Tasks currently in status `running`. -/
def countRunning (tasks : List SubAgentTask) : Nat :=
  (tasks.filter (fun t => t.status == TaskStatus.running)).length

/-- The running count of a supervisor state. -/
def runningCount (s : SubAgentState) : Nat := countRunning s.activeTasks

/-- `SubAgentManager.spawn` up to its synchronous return: reject at the
ceiling, otherwise insert the new task as `pending`. -/
def spawn (s : SubAgentState) (description parentSessionId newId : String) :
    Except String (SubAgentState × SubAgentTask) :=
  if s.maxConcurrent ≤ runningCount s then
    Except.error ("Max concurrent sub-agents reached (" ++ toString s.maxConcurrent
      ++ "). Wait for a running task to complete.")
  else
    let task : SubAgentTask :=
      { id := newId, parentSessionId := parentSessionId, description := description
        status := TaskStatus.pending }
    Except.ok ({ s with activeTasks := s.activeTasks ++ [task] }, task)

/-- The synchronous head of `executeTask`: `task.status = 'running'`. -/
def startTask (s : SubAgentState) (taskId : String) : SubAgentState :=
  { s with activeTasks := s.activeTasks.map (fun t =>
      if t.id = taskId then { t with status := TaskStatus.running } else t) }

/-- The terminal tail of `executeTask`: record result or error. -/
def finishMap (taskId : String) (success : Bool) (payload : String)
    (t : SubAgentTask) : SubAgentTask :=
  if t.id = taskId then
    if success then
      { t with status := TaskStatus.completed, result := some payload }
    else
      { t with status := TaskStatus.failed, error := some payload }
  else t

/-- A task reaching its terminal status. -/
def finishTask (s : SubAgentState) (taskId : String) (success : Bool)
    (payload : String) : SubAgentState :=
  { s with activeTasks := s.activeTasks.map (finishMap taskId success payload) }

/-- The supervisor's observable steps. -/
inductive SubEvent
  | spawnTask (description parentSessionId newId : String)
  | finish (taskId : String) (success : Bool) (payload : String)
  deriving DecidableEq, Repr

/-- One cooperative step of the supervisor.  A rejected spawn leaves the
state untouched; an accepted spawn is immediately followed by the
synchronous `pending → running` transition of `executeTask`. -/
def applyEvent (s : SubAgentState) : SubEvent → SubAgentState
  | SubEvent.spawnTask description parentSessionId newId =>
      match spawn s description parentSessionId newId with
      | Except.error _ => s
      | Except.ok (s2, task) => startTask s2 task.id
  | SubEvent.finish taskId success payload => finishTask s taskId success payload

/-! ## Concrete fixtures used by the closed witnesses -/

/-- An execution context whose approval response never arrives. -/
def ctx0 : ToolContext :=
  { sessionId := "s0", userId := "u0", channelName := "telegram",
    workspacePath := "ws", approvalArrival := none }

/-- A supervised tool whose body succeeds. -/
def supTool : ToolDef :=
  { name := "wr", description := "writes a file",
    approvalLevel := ApprovalLevel.supervised,
    run := fun _ _ => Except.ok { toolCallId := "tc", content := "ran" } }

/-- A backend whose rounds always finalize one tool call and finish. -/
def sampleStreams : Nat → List StreamChunk := fun _ =>
  [StreamChunk.text "hi",
   StreamChunk.toolCallEnd (some { id := some "c1", name := some "t1", arguments := some [] }),
   StreamChunk.done]

/-- A backend that fails mid-stream after some text. -/
def errorStreams : Nat → List StreamChunk := fun _ =>
  [StreamChunk.text "partial", StreamChunk.error "boom"]

/-- A trivial tool executor. -/
def sampleExec : ToolCall → ToolResult := fun tc =>
  { toolCallId := tc.id, content := "ok" }

/-- A provider that yields an error chunk before any content. -/
def failFastProvider : ProviderModel :=
  { available := true, chunks := [StreamChunk.error "upstream 500"] }

/-- A provider that yields text and then an error chunk. -/
def failMidProvider : ProviderModel :=
  { available := true, chunks := [StreamChunk.text "par", StreamChunk.error "cut"] }

/-- A running sub-agent task. -/
def runningTask (i : String) : SubAgentTask :=
  { id := i, parentSessionId := "parent", description := "work",
    status := TaskStatus.running }

/-- A supervisor state at the concurrency ceiling. -/
def fullState : SubAgentState :=
  { activeTasks := [runningTask "a", runningTask "b", runningTask "c"] }

/-- C7.  When the token estimate strictly exceeds the threshold,
compaction returns exactly one synthetic system message (carrying the
summary of the transcript in which each earlier message contributes its
first 500 characters) followed by the most recent
`min 10 (messageCount / 3)` original messages unchanged. -/
theorem compactMessages_over_threshold_shape
    (messages : List Message) (threshold : Nat) (summarize : String → String)
    (hover : threshold < estimateTokens messages) :
    compactMessages messages threshold summarize
      = { role := Role.system
          content := "[Conversation summary of "
            ++ toString (messages.length - min 10 (messages.length / 3))
            ++ " earlier messages]:\n"
            ++ summarize (summaryPrompt ++ String.intercalate "\n"
                ((messages.take (messages.length - min 10 (messages.length / 3))).map
                  transcriptLine)) }
        :: messages.drop (messages.length - min 10 (messages.length / 3))
    ∧ (compactMessages messages threshold summarize).length
        = min 10 (messages.length / 3) + 1
    ∧ messages.take (messages.length - min 10 (messages.length / 3))
        ++ (compactMessages messages threshold summarize).drop 1 = messages
    ∧ ∀ m ∈ messages.take (messages.length - min 10 (messages.length / 3)),
        (sliceChars m.content 500).length ≤ 500 := by
  have hnot : ¬ estimateTokens messages < threshold := Nat.lt_asymm hover
  have hkeep : min 10 (messages.length / 3) ≤ messages.length :=
    le_trans (min_le_right _ _) (Nat.div_le_self _ _)
  have hlen : (messages.take (messages.length - min 10 (messages.length / 3))).length
      = messages.length - min 10 (messages.length / 3) := by
    rw [List.length_take]
    exact Nat.min_eq_left (Nat.sub_le _ _)
  constructor
  · simp only [compactMessages, if_neg hnot, hlen]
  constructor
  · simp only [compactMessages, if_neg hnot, List.length_cons, List.length_drop]
    omega
  constructor
  · simp only [compactMessages, if_neg hnot, List.drop_one, List.tail_cons]
    exact List.take_append_drop _ _
  · intro m _
    simp only [sliceChars, String.length]
    calc (m.content.data.take 500).length ≤ 500 := by
          rw [List.length_take]; exact min_le_left _ _

/-- Closed witness for C7 on a concrete four-message history. -/
theorem compactMessages_over_threshold_shape_witness :
    (1 < estimateTokens
        [{ role := Role.user, content := "aaaa" }, { role := Role.assistant, content := "bbbb" },
         { role := Role.user, content := "cccc" }, { role := Role.assistant, content := "dddd" }])
    ∧ compactMessages
        [{ role := Role.user, content := "aaaa" }, { role := Role.assistant, content := "bbbb" },
         { role := Role.user, content := "cccc" }, { role := Role.assistant, content := "dddd" }]
        1 (fun _ => "SUM")
      = [{ role := Role.system,
           content := "[Conversation summary of 3 earlier messages]:\nSUM" },
         { role := Role.assistant, content := "dddd" }] := by
  refine ⟨by decide, ?_⟩
  have h := (compactMessages_over_threshold_shape
    [{ role := Role.user, content := "aaaa" }, { role := Role.assistant, content := "bbbb" },
     { role := Role.user, content := "cccc" }, { role := Role.assistant, content := "dddd" }]
    1 (fun _ => "SUM") (by decide)).1
  rw [h]
  decide

/-- C8 counterexample: a one-message history whose token estimate equals
the threshold — it does **not** exceed the threshold, yet
`compactMessages` rewrites it (the code compacts at `estimate ≥
threshold`, i.e. already at equality). -/
theorem compactMessages_at_threshold_not_identity :
    ¬ 1 < estimateTokens [{ role := Role.user, content := "abcd" }]
    ∧ compactMessages [{ role := Role.user, content := "abcd" }] 1 (fun _ => "")
        ≠ [{ role := Role.user, content := "abcd" }] := by
  constructor
  · decide
  · decide

/-- C8 amended.  Compaction is the identity exactly below the threshold:
whenever the token estimate is strictly less than the configured
threshold — in particular for a freshly compacted history that has not
regrown to the threshold — `compactMessages` returns its input
unchanged. -/
theorem compactMessages_below_threshold_id
    (messages : List Message) (threshold : Nat) (summarize : String → String)
    (hunder : estimateTokens messages < threshold) :
    compactMessages messages threshold summarize = messages := by
  simp only [compactMessages, if_pos hunder]

/-- Closed witness for the amended C8. -/
theorem compactMessages_below_threshold_id_witness :
    estimateTokens [{ role := Role.user, content := "abcd" }] < 2
    ∧ compactMessages [{ role := Role.user, content := "abcd" }] 2 (fun _ => "")
        = [{ role := Role.user, content := "abcd" }] :=
  ⟨by decide,
   compactMessages_below_threshold_id
     [{ role := Role.user, content := "abcd" }] 2 (fun _ => "") (by decide)⟩

/-- C4.  `ToolRegistry.execute` never throws — it is a total function
into `ToolResult`: an unknown tool name returns an error-flagged result,
and an exception raised by the tool's own execution (an `Except.error`
of the body) is caught and returned as an error-flagged result carrying
the failure message.  The error-path guard says the approval gate did
not deny the call, i.e. execution was actually reached. -/
theorem executeTool_never_throws
    (tools : String → Option ToolDef) (enabled : Bool) (fname : String)
    (args : Args) (ctx : ToolContext) :
    (tools fname = none →
      executeTool tools enabled fname args ctx
        = ({ toolCallId := ctx.sessionId
             content := "Error: Unknown tool \"" ++ fname ++ "\""
             isError := true }, false))
    ∧ (∀ tool e, tools fname = some tool →
        tool.run args ctx = Except.error e →
        ¬(enabled = true ∧ tool.approvalLevel = ApprovalLevel.supervised
            ∧ requestApprovalResult ctx.approvalArrival = false) →
        (executeTool tools enabled fname args ctx).1
          = { toolCallId := ctx.sessionId
              content := "Error executing tool \"" ++ fname ++ "\": " ++ e
              isError := true }) := by
  constructor
  · intro h
    simp [executeTool, h]
  · intro tool e hsome hrun hng
    by_cases hc : enabled = true ∧ tool.approvalLevel = ApprovalLevel.supervised
    · cases hreq : requestApprovalResult ctx.approvalArrival with
      | false => exact absurd ⟨hc.1, hc.2, hreq⟩ hng
      | true => simp [executeTool, hsome, if_pos hc, hreq, runTool, hrun]
    · simp [executeTool, hsome, if_neg hc, runTool, hrun]

/-- Closed witness for C4: an unknown name, and a tool that throws. -/
theorem executeTool_never_throws_witness :
    executeTool (fun _ => none) true "ghost" [] ctx0
      = ({ toolCallId := ctx0.sessionId
           content := "Error: Unknown tool \"" ++ "ghost" ++ "\""
           isError := true }, false)
    ∧ (executeTool
        (fun _ => some { name := "boom", description := "d",
                         approvalLevel := ApprovalLevel.read,
                         run := fun _ _ => Except.error "kaput" })
        false "boom" [] ctx0).1
      = { toolCallId := ctx0.sessionId
          content := "Error executing tool \"" ++ "boom" ++ "\": " ++ "kaput"
          isError := true } := by
  constructor
  · exact (executeTool_never_throws (fun _ => none) true "ghost" [] ctx0).1 rfl
  · exact (executeTool_never_throws
      (fun _ => some { name := "boom", description := "d",
                       approvalLevel := ApprovalLevel.read,
                       run := fun _ _ => Except.error "kaput" })
      false "boom" [] ctx0).2 _ "kaput" rfl rfl (by simp)

/-- C10.  With `security.approvalGates.enabled = false` every registered
tool — whatever its approval level, `supervised` included — executes
immediately: the result is exactly the tool body's converted outcome and
no approval request is published or waited for (second component
`false`). -/
theorem executeTool_gates_disabled
    (tools : String → Option ToolDef) (fname : String) (args : Args)
    (ctx : ToolContext) (tool : ToolDef)
    (hsome : tools fname = some tool) :
    executeTool tools false fname args ctx = (runTool fname tool args ctx, false) := by
  simp [executeTool, hsome]

/-- Closed witness for C10: a supervised tool with no approval response
still runs at once when the gate is disabled. -/
theorem executeTool_gates_disabled_witness :
    executeTool (fun _ => some supTool) false "wr" [] ctx0
      = (runTool "wr" supTool [] ctx0, false)
    ∧ runTool "wr" supTool [] ctx0 = { toolCallId := "tc", content := "ran" } := by
  constructor
  · exact executeTool_gates_disabled (fun _ => some supTool) "wr" [] ctx0 supTool rfl
  · decide

/-- Unfolding of one agent-loop iteration with budget remaining. -/
theorem agentLoop_succ (streams : Nat → List StreamChunk) (exec : ToolCall → ToolResult)
    (fuel round : Nat) (msgs : List Message) (out : List StreamChunk) :
    agentLoop streams exec (fuel + 1) round msgs out
      = match runRound (streams round) exec with
        | RoundResult.errored y => (msgs, out ++ y)
        | RoundResult.terminal y app => (msgs ++ app, out ++ y)
        | RoundResult.next y app =>
            agentLoop streams exec fuel (round + 1) (msgs ++ app) (out ++ y) := rfl

/-- A round that finalizes tool calls without a stream error executes
the tools and loops. -/
theorem runRound_next_eq (chunks : List StreamChunk) (exec : ToolCall → ToolResult)
    (hne : (processStream chunks).errored = false)
    (hcalls : (processStream chunks).pendingToolCalls ≠ []) :
    runRound chunks exec
      = RoundResult.next (processStream chunks).yielded
          ([assistantMessage (processStream chunks).responseText
              (processStream chunks).pendingToolCalls]
            ++ (processStream chunks).pendingToolCalls.map (toolResultMessage exec)) := by
  unfold runRound
  simp [hne, hcalls, assistantBlock]

/-- Each tool-result message in a round's appended block matches its
tool call positionally: role `tool` and the call's id echoed back. -/
theorem toolResultMessage_zip_spec (exec : ToolCall → ToolResult) :
    ∀ calls : List ToolCall,
      ∀ pr ∈ List.zip calls (calls.map (toolResultMessage exec)),
        pr.2.role = Role.tool ∧ pr.2.toolCallId = some pr.1.id
          ∧ pr.2.name = some pr.1.name := by
  intro calls
  induction calls with
  | nil => intro pr h; simp at h
  | cons c cs ih =>
      intro pr h
      simp only [List.map_cons, List.zip_cons_cons, List.mem_cons] at h
      rcases h with h | h
      · subst h; exact ⟨rfl, rfl, rfl⟩
      · exact ih pr h

/-- C1.  For a turn whose stream completes with finalized tool calls,
exactly one tool-result message per finalized call is appended to the
session — after the assistant message that carries those calls and
before the next backend request (the recursive `agentLoop` call):
the appended block is the assistant message followed by
`calls.map toolResultMessage`, whose length equals the number of calls
and whose entries echo each call's id 1:1 in order. -/
theorem agentLoop_one_result_per_tool_call
    (streams : Nat → List StreamChunk) (exec : ToolCall → ToolResult)
    (fuel round : Nat) (msgs : List Message) (out : List StreamChunk)
    (hne : (processStream (streams round)).errored = false)
    (hcalls : (processStream (streams round)).pendingToolCalls ≠ []) :
    agentLoop streams exec (fuel + 1) round msgs out
      = agentLoop streams exec fuel (round + 1)
          (msgs ++ ([assistantMessage (processStream (streams round)).responseText
                      (processStream (streams round)).pendingToolCalls]
            ++ (processStream (streams round)).pendingToolCalls.map (toolResultMessage exec)))
          (out ++ (processStream (streams round)).yielded)
    ∧ ((processStream (streams round)).pendingToolCalls.map (toolResultMessage exec)).length
        = (processStream (streams round)).pendingToolCalls.length
    ∧ (assistantMessage (processStream (streams round)).responseText
        (processStream (streams round)).pendingToolCalls).toolCalls
        = some (processStream (streams round)).pendingToolCalls
    ∧ ∀ pr ∈ List.zip (processStream (streams round)).pendingToolCalls
          ((processStream (streams round)).pendingToolCalls.map (toolResultMessage exec)),
        pr.2.role = Role.tool ∧ pr.2.toolCallId = some pr.1.id := by
  refine ⟨?_, by simp, ?_, ?_⟩
  · rw [agentLoop_succ, runRound_next_eq _ _ hne hcalls]
  · simp [assistantMessage, hcalls]
  · intro pr h
    exact ⟨(toolResultMessage_zip_spec exec _ pr h).1,
           (toolResultMessage_zip_spec exec _ pr h).2.1⟩

/-- Closed witness for C1 on a one-tool-call stream. -/
theorem agentLoop_one_result_per_tool_call_witness :
    ((processStream (sampleStreams 0)).errored = false
      ∧ (processStream (sampleStreams 0)).pendingToolCalls ≠ [])
    ∧ ((processStream (sampleStreams 0)).pendingToolCalls.map (toolResultMessage sampleExec)).length
        = (processStream (sampleStreams 0)).pendingToolCalls.length := by
  refine ⟨⟨by decide, by decide⟩, ?_⟩
  exact (agentLoop_one_result_per_tool_call sampleStreams sampleExec 0 0 [] []
    (by decide) (by decide)).2.1

/-- When the walk over a stream ends in `errored`, the yielded chunks
are an error-free prefix followed by the forwarded error chunk. -/
theorem processStream_errored_split :
    ∀ cs, (processStream cs).errored = true →
      ∃ pre e, (processStream cs).yielded = pre ++ [StreamChunk.error e]
        ∧ ∀ c ∈ pre, isErrorChunk c = false := by
  intro cs
  induction cs with
  | nil => intro h; simp [processStream] at h
  | cons c rest ih =>
      cases c with
      | error e => intro _; exact ⟨[], e, rfl, by simp⟩
      | text s =>
          intro h
          simp only [processStream] at h ⊢
          obtain ⟨pre, e, hy, hpre⟩ := ih h
          refine ⟨StreamChunk.text s :: pre, e, by simp [hy], ?_⟩
          intro c hc
          rcases List.mem_cons.mp hc with rfl | hc2
          · rfl
          · exact hpre c hc2
      | toolCallStart tc =>
          intro h
          simp only [processStream] at h ⊢
          obtain ⟨pre, e, hy, hpre⟩ := ih h
          refine ⟨StreamChunk.toolCallStart tc :: pre, e, by simp [hy], ?_⟩
          intro c hc
          rcases List.mem_cons.mp hc with rfl | hc2
          · rfl
          · exact hpre c hc2
      | toolCallDelta tc =>
          intro h
          simp only [processStream] at h ⊢
          obtain ⟨pre, e, hy, hpre⟩ := ih h
          refine ⟨StreamChunk.toolCallDelta tc :: pre, e, by simp [hy], ?_⟩
          intro c hc
          rcases List.mem_cons.mp hc with rfl | hc2
          · rfl
          · exact hpre c hc2
      | toolCallEnd tc =>
          intro h
          cases hfc : finalizedCall tc with
          | some call =>
              simp only [processStream, hfc] at h ⊢
              obtain ⟨pre, e, hy, hpre⟩ := ih h
              refine ⟨StreamChunk.toolCallEnd tc :: pre, e, by simp [hy], ?_⟩
              intro c hc
              rcases List.mem_cons.mp hc with rfl | hc2
              · rfl
              · exact hpre c hc2
          | none =>
              simp only [processStream, hfc] at h ⊢
              obtain ⟨pre, e, hy, hpre⟩ := ih h
              refine ⟨StreamChunk.toolCallEnd tc :: pre, e, by simp [hy], ?_⟩
              intro c hc
              rcases List.mem_cons.mp hc with rfl | hc2
              · rfl
              · exact hpre c hc2
      | done =>
          intro h
          simp only [processStream] at h ⊢
          obtain ⟨pre, e, hy, hpre⟩ := ih h
          refine ⟨StreamChunk.done :: pre, e, by simp [hy], ?_⟩
          intro c hc
          rcases List.mem_cons.mp hc with rfl | hc2
          · rfl
          · exact hpre c hc2

/-- C9.  A mid-stream error chunk ends the whole turn at once: the loop
forwards the chunks seen so far — ending in the error chunk — and
returns with the session untouched.  No assistant message is saved (the
accumulated response text and finalized tool calls are discarded) and no
tool is executed: the result does not depend on `exec` at all. -/
theorem agentLoop_stream_error_aborts
    (streams : Nat → List StreamChunk) (exec : ToolCall → ToolResult)
    (fuel round : Nat) (msgs : List Message) (out : List StreamChunk)
    (herr : (processStream (streams round)).errored = true) :
    agentLoop streams exec (fuel + 1) round msgs out
      = (msgs, out ++ (processStream (streams round)).yielded)
    ∧ ∃ pre e, (processStream (streams round)).yielded = pre ++ [StreamChunk.error e]
        ∧ ∀ c ∈ pre, isErrorChunk c = false := by
  constructor
  · have hr : runRound (streams round) exec
        = RoundResult.errored (processStream (streams round)).yielded := by
      unfold runRound
      simp [herr]
    rw [agentLoop_succ, hr]
  · exact processStream_errored_split _ herr

/-- Closed witness for C9 on a text-then-error stream. -/
theorem agentLoop_stream_error_aborts_witness :
    (processStream (errorStreams 0)).errored = true
    ∧ agentLoop errorStreams sampleExec 1 0 [] []
        = ([], [] ++ (processStream (errorStreams 0)).yielded) :=
  ⟨by decide,
   (agentLoop_stream_error_aborts errorStreams sampleExec 0 0 [] [] (by decide)).1⟩

/-- A round whose `runRound` outcome is `next` recurses with the
appended messages and yielded chunks. -/
theorem agentLoop_next (streams : Nat → List StreamChunk) (exec : ToolCall → ToolResult)
    (fuel round : Nat) (msgs : List Message) (out : List StreamChunk)
    (y : List StreamChunk) (app : List Message)
    (h : runRound (streams round) exec = RoundResult.next y app) :
    agentLoop streams exec (fuel + 1) round msgs out
      = agentLoop streams exec fuel (round + 1) (msgs ++ app) (out ++ y) := by
  rw [agentLoop_succ, h]

/-- When every round finalizes tool calls and none errors, the loop
consumes its whole budget: it runs one round per unit of fuel and then
stops with the informational budget notice. -/
theorem agentLoop_all_rounds_next
    (streams : Nat → List StreamChunk) (exec : ToolCall → ToolResult)
    (H : ∀ r, (processStream (streams r)).errored = false
        ∧ (processStream (streams r)).pendingToolCalls ≠ []) :
    ∀ (fuel start : Nat) (msgs : List Message) (out : List StreamChunk),
      agentLoop streams exec fuel start msgs out
        = (msgs ++ roundsAppended streams exec start fuel,
           out ++ roundsYielded streams start fuel ++ [StreamChunk.text maxTurnsNotice]) := by
  intro fuel
  induction fuel with
  | zero =>
      intro start msgs out
      simp [agentLoop, roundsAppended, roundsYielded]
  | succ n ih =>
      intro start msgs out
      rw [agentLoop_next streams exec n start msgs out _ _
        (runRound_next_eq _ _ (H start).1 (H start).2)]
      rw [ih (start + 1)]
      simp only [roundsAppended, roundsYielded, roundAppended]
      simp [assistantBlock, (H start).2, List.append_assoc]

/-- C3.  With a model that requests tool calls on every round, one
inbound message drives exactly `maxTurns` rounds — the appended messages
and yielded chunks range over rounds `0 … maxTurns - 1` only — and the
turn then ends by yielding the informational budget-notice text chunk
(a plain text chunk, not an error). -/
theorem processIncoming_turn_budget
    (streams : Nat → List StreamChunk) (exec : ToolCall → ToolResult)
    (maxTurns : Nat) (sessionMessages : List Message) (text : String)
    (H : ∀ r, (processStream (streams r)).errored = false
        ∧ (processStream (streams r)).pendingToolCalls ≠ []) :
    processIncoming streams exec maxTurns sessionMessages text
      = ((sessionMessages ++ [{ role := Role.user, content := text }])
           ++ roundsAppended streams exec 0 maxTurns,
         roundsYielded streams 0 maxTurns ++ [StreamChunk.text maxTurnsNotice]) := by
  rw [processIncoming, agentLoop_all_rounds_next streams exec H maxTurns 0 _ []]
  simp

/-- Closed witness for C3 with budget 2 and an always-tool-calling model. -/
theorem processIncoming_turn_budget_witness :
    (∀ r, (processStream (sampleStreams r)).errored = false
        ∧ (processStream (sampleStreams r)).pendingToolCalls ≠ [])
    ∧ processIncoming sampleStreams sampleExec 2 [] "go"
        = (([] ++ [{ role := Role.user, content := "go" }])
             ++ roundsAppended sampleStreams sampleExec 0 2,
           roundsYielded sampleStreams 0 2 ++ [StreamChunk.text maxTurnsNotice]) := by
  have H : ∀ r, (processStream (sampleStreams r)).errored = false
      ∧ (processStream (sampleStreams r)).pendingToolCalls ≠ [] := by
    intro r
    simp only [sampleStreams]
    constructor
    · decide
    · decide
  exact ⟨H, processIncoming_turn_budget sampleStreams sampleExec 2 [] "go" H⟩

/-- C5.  A `supervised` tool whose approval response does not arrive
within the 120 000 ms window is denied, not failed: the registry returns
a result whose error flag is `false` and whose content states the tool
was denied, and the agent loop then continues into the next round (the
denied result is appended as an ordinary tool-result message and the
loop recurses) instead of terminating the turn. -/
theorem executeTool_timeout_denied_loop_continues
    (tools : String → Option ToolDef) (fname : String) (args : Args)
    (ctx : ToolContext) (tool : ToolDef)
    (hsome : tools fname = some tool)
    (hsup : tool.approvalLevel = ApprovalLevel.supervised)
    (htimeout : ∀ t approved, ctx.approvalArrival = some (t, approved) → 120000 ≤ t) :
    executeTool tools true fname args ctx
      = ({ toolCallId := ctx.sessionId
           content := "Tool \"" ++ fname ++ "\" was denied by user."
           isError := false }, true)
    ∧ (executeTool tools true fname args ctx).1.isError = false
    ∧ ∀ (streams : Nat → List StreamChunk) (exec : ToolCall → ToolResult)
        (fuel round : Nat) (msgs : List Message) (out : List StreamChunk),
        (processStream (streams round)).errored = false →
        (processStream (streams round)).pendingToolCalls ≠ [] →
        agentLoop streams exec (fuel + 1) round msgs out
          = agentLoop streams exec fuel (round + 1)
              (msgs ++ ([assistantMessage (processStream (streams round)).responseText
                          (processStream (streams round)).pendingToolCalls]
                ++ (processStream (streams round)).pendingToolCalls.map
                     (toolResultMessage exec)))
              (out ++ (processStream (streams round)).yielded) := by
  have hreq : requestApprovalResult ctx.approvalArrival = false := by
    unfold requestApprovalResult busWaitFor
    cases harr : ctx.approvalArrival with
    | none => rfl
    | some p =>
        obtain ⟨t, approved⟩ := p
        have ht := htimeout t approved harr
        simp [Nat.not_lt.mpr ht]
  have hmain : executeTool tools true fname args ctx
      = ({ toolCallId := ctx.sessionId
           content := "Tool \"" ++ fname ++ "\" was denied by user."
           isError := false }, true) := by
    simp [executeTool, hsome, hsup, hreq]
  refine ⟨hmain, by rw [hmain], ?_⟩
  intro streams exec fuel round msgs out hne hcalls
  exact agentLoop_next streams exec fuel round msgs out _ _
    (runRound_next_eq _ _ hne hcalls)

/-- Closed witness for C5: the supervised tool with an absent approval
response is denied without error. -/
theorem executeTool_timeout_denied_loop_continues_witness :
    executeTool (fun _ => some supTool) true "wr" [] ctx0
      = ({ toolCallId := ctx0.sessionId
           content := "Tool \"" ++ "wr" ++ "\" was denied by user."
           isError := false }, true)
    ∧ (executeTool (fun _ => some supTool) true "wr" [] ctx0).1.isError = false := by
  have h := executeTool_timeout_denied_loop_continues
    (fun _ => some supTool) "wr" [] ctx0 supTool rfl rfl
    (by intro t approved harr; simp [ctx0] at harr)
  exact ⟨h.1, h.2.1⟩

/-- Setting a key in the health table makes it read back. -/
theorem lookupStatus_setStatus_self :
    ∀ (m : List (String × Bool)) (k : String) (v : Bool),
      lookupStatus (setStatus m k v) k = some v := by
  intro m k v
  induction m with
  | nil => simp [setStatus, lookupStatus]
  | cons p rest ih =>
      obtain ⟨k0, v0⟩ := p
      by_cases h : k0 = k
      · simp [setStatus, lookupStatus, h]
      · simp [setStatus, lookupStatus, h, ih]

/-- Deleting a key from the health table clears it. -/
theorem lookupStatus_removeStatus_self :
    ∀ (m : List (String × Bool)) (k : String),
      lookupStatus (removeStatus m k) k = none := by
  intro m k
  induction m with
  | nil => simp [removeStatus, lookupStatus]
  | cons p rest ih =>
      obtain ⟨k0, v0⟩ := p
      by_cases h : k0 = k
      · simpa [removeStatus, List.filter_cons, h] using ih
      · simpa [removeStatus, List.filter_cons, h, lookupStatus] using ih

/-- A non-terminal chunk is a content chunk. -/
theorem content_of_not_terminal (c : StreamChunk) (h : isTerminalChunk c = false) :
    isContentChunk c = true := by
  cases c <;> simp_all [isTerminalChunk, isContentChunk]

/-- A content chunk is not an error chunk. -/
theorem not_error_of_content (c : StreamChunk) (h : isContentChunk c = true) :
    isErrorChunk c = false := by
  cases c <;> simp_all [isContentChunk, isErrorChunk]

/-- When a stream contains an error chunk, it decomposes as the yielded
prefix, the error chunk, and a remainder, with the prefix error-free. -/
theorem splitAtError_decomp :
    ∀ cs : List StreamChunk, (splitAtError cs).2 = true →
      ∃ e post, cs = (splitAtError cs).1 ++ StreamChunk.error e :: post
        ∧ ∀ c ∈ (splitAtError cs).1, isErrorChunk c = false := by
  intro cs
  induction cs with
  | nil => intro h; simp [splitAtError] at h
  | cons c rest ih =>
      intro h
      by_cases hc : isErrorChunk c = true
      · obtain ⟨e⟩ : ∃ e, c = StreamChunk.error e := by
          cases c <;> simp_all [isErrorChunk]
        subst c
        refine ⟨e, rest, ?_, ?_⟩
        · simp [splitAtError, isErrorChunk]
        · simp [splitAtError, isErrorChunk]
      · replace hc : isErrorChunk c = false := by simpa using hc
        have h2 : (splitAtError rest).2 = true := by
          simpa [splitAtError, hc] using h
        obtain ⟨e, post, hcs, hpre⟩ := ih h2
        refine ⟨e, post, ?_, ?_⟩
        · have hcons : c :: rest
              = c :: ((splitAtError rest).1 ++ StreamChunk.error e :: post) :=
            congrArg (fun l => c :: l) hcs
          simpa [splitAtError, hc] using hcons
        · intro d hd
          simp only [splitAtError, hc] at hd
          simp only [Bool.false_eq_true, if_false, List.mem_cons] at hd
          rcases hd with rfl | hd2
          · exact hc
          · exact hpre d hd2

/-- In a well-formed stream a terminal chunk is last: everything before
some later element is non-terminal. -/
theorem wf_prefix_not_terminal :
    ∀ (xs : List StreamChunk) (y : StreamChunk) (ys : List StreamChunk),
      wellFormedStream (xs ++ y :: ys) → ∀ c ∈ xs, isTerminalChunk c = false := by
  intro xs
  induction xs with
  | nil => intro y ys _ c hc; simp at hc
  | cons x rest ih =>
      intro y ys hwf c hc
      have hshape : isTerminalChunk x = false ∧ wellFormedStream (rest ++ y :: ys) := by
        cases hrest : rest ++ y :: ys with
        | nil => exact absurd hrest (by simp)
        | cons a l =>
            rw [List.cons_append, hrest] at hwf
            exact ⟨hwf.1, hrest ▸ hwf.2⟩
      rcases List.mem_cons.mp hc with rfl | hc2
      · exact hshape.1
      · exact ih y ys hshape.2 c hc2

/-- A list with no error chunks counts zero error chunks. -/
theorem countErrorChunks_eq_zero :
    ∀ cs : List StreamChunk, (∀ c ∈ cs, isErrorChunk c = false) →
      countErrorChunks cs = 0 := by
  intro cs
  induction cs with
  | nil => intro _; rfl
  | cons a l ih =>
      intro h
      have ha := h a (List.mem_cons_self a l)
      have hl := ih (fun c hc => h c (List.mem_cons_of_mem a hc))
      simp only [countErrorChunks, List.filter_cons, ha] at hl ⊢
      simpa using hl

/-- One attempt step of `FailoverManager.chat`: a present, available,
not-unhealthy provider is streamed and its outcome dispatched. -/
theorem failoverChat_attempt
    (providers : String → Option ProviderModel) (now : Nat) (pname : String)
    (rest : List String) (hs : HealthState) (tried : List String)
    (out : List StreamChunk) (p : ProviderModel)
    (hp : providers pname = some p) (hav : p.available = true)
    (hh : ¬ lookupStatus hs.status pname = some false) :
    failoverChat providers now (pname :: rest) hs tried out
      = match providerRun p with
        | StreamRun.success ys =>
            ({ hs with status := setStatus hs.status pname true }, out ++ ys)
        | StreamRun.failed ys =>
            if ys = [] then
              failoverChat providers now rest (markUnhealthy hs pname now)
                (tried ++ [pname]) out
            else
              (markUnhealthy hs pname now, out ++ ys ++ [midStreamErrorChunk pname]) := by
  simp only [failoverChat, hp]
  rw [if_neg (by simp [hav]), if_neg hh]

/-- C2.  Failover mid-stream policy: when a backend's stream yields an
error chunk, the backend is marked unhealthy (flag set `false`, reset
timer armed for `now + 60000` ms, and the flag cleared once the timer
fires).  If no content chunk was yielded before the error, the call
moves on to the next backend in priority order; if content was already
yielded, the call ends at once with the partial output plus exactly one
terminal error chunk — no further backend is tried and no output is
duplicated. -/
theorem failoverChat_midstream_policy
    (providers : String → Option ProviderModel) (now : Nat) (pname : String)
    (rest : List String) (hs : HealthState) (tried : List String)
    (out : List StreamChunk) (p : ProviderModel)
    (hp : providers pname = some p)
    (hav : p.available = true)
    (hh : ¬ lookupStatus hs.status pname = some false)
    (hwf : wellFormedStream p.chunks)
    (herr : (splitAtError p.chunks).2 = true) :
    (lookupStatus (markUnhealthy hs pname now).status pname = some false
      ∧ (pname, now + 60000) ∈ (markUnhealthy hs pname now).timers
      ∧ lookupStatus (cooldownElapsed (markUnhealthy hs pname now) pname).status pname
          = none)
    ∧ ((∀ c ∈ (splitAtError p.chunks).1, isContentChunk c = false) →
        failoverChat providers now (pname :: rest) hs tried out
          = failoverChat providers now rest (markUnhealthy hs pname now)
              (tried ++ [pname]) out)
    ∧ ((∃ c ∈ (splitAtError p.chunks).1, isContentChunk c = true) →
        failoverChat providers now (pname :: rest) hs tried out
          = (markUnhealthy hs pname now,
             out ++ (splitAtError p.chunks).1 ++ [midStreamErrorChunk pname])
        ∧ countErrorChunks ((splitAtError p.chunks).1 ++ [midStreamErrorChunk pname])
            = 1) := by
  have hrun : providerRun p = StreamRun.failed (splitAtError p.chunks).1 := by
    unfold providerRun
    simp [herr]
  have hcontent : ∀ c ∈ (splitAtError p.chunks).1, isContentChunk c = true := by
    obtain ⟨e, post, hdec, _⟩ := splitAtError_decomp p.chunks herr
    intro c hc
    have hwf2 : wellFormedStream ((splitAtError p.chunks).1
        ++ StreamChunk.error e :: post) := hdec ▸ hwf
    exact content_of_not_terminal c (wf_prefix_not_terminal _ _ _ hwf2 c hc)
  refine ⟨⟨?_, ?_, ?_⟩, ?_, ?_⟩
  · simp [markUnhealthy, lookupStatus_setStatus_self]
  · simp [markUnhealthy]
  · simp [cooldownElapsed, markUnhealthy, lookupStatus_removeStatus_self]
  · intro hno
    have hys : (splitAtError p.chunks).1 = [] := by
      cases hys : (splitAtError p.chunks).1 with
      | nil => rfl
      | cons a l =>
          have h1 := hcontent a (by rw [hys]; exact List.mem_cons_self a l)
          have h2 := hno a (by rw [hys]; exact List.mem_cons_self a l)
          rw [h1] at h2
          cases h2
    rw [failoverChat_attempt providers now pname rest hs tried out p hp hav hh, hrun]
    simp [hys]
  · intro hex
    have hys : (splitAtError p.chunks).1 ≠ [] := by
      obtain ⟨c, hc, _⟩ := hex
      intro hnil
      rw [hnil] at hc
      simp at hc
    constructor
    · rw [failoverChat_attempt providers now pname rest hs tried out p hp hav hh, hrun]
      simp [hys]
    · have hnoerr : ∀ c ∈ (splitAtError p.chunks).1, isErrorChunk c = false :=
        fun c hc => not_error_of_content c (hcontent c hc)
      have hz := countErrorChunks_eq_zero _ hnoerr
      simp only [countErrorChunks, List.filter_append] at hz ⊢
      simp [hz, midStreamErrorChunk, isErrorChunk]

/-- Closed witness for C2: an error before any content retries the next
backend; an error after text ends the call with one terminal error
chunk. -/
theorem failoverChat_midstream_policy_witness :
    (failoverChat (fun _ => some failFastProvider) 7 ("a" :: ["b"])
        { status := [], timers := [] } [] []
      = failoverChat (fun _ => some failFastProvider) 7 ["b"]
          (markUnhealthy { status := [], timers := [] } "a" 7) ([] ++ ["a"]) [])
    ∧ (failoverChat (fun _ => some failMidProvider) 9 ("a" :: [])
        { status := [], timers := [] } [] []
      = (markUnhealthy { status := [], timers := [] } "a" 9,
         [] ++ (splitAtError failMidProvider.chunks).1 ++ [midStreamErrorChunk "a"]))
    ∧ lookupStatus (markUnhealthy { status := [], timers := [] } "a" 7).status "a"
        = some false
    ∧ ("a", 7 + 60000) ∈ (markUnhealthy { status := [], timers := [] } "a" 7).timers := by
  have hfast := failoverChat_midstream_policy (fun _ => some failFastProvider) 7 "a"
    ["b"] { status := [], timers := [] } [] [] failFastProvider rfl rfl
    (by decide) (by trivial) (by decide)
  have hmid := failoverChat_midstream_policy (fun _ => some failMidProvider) 9 "a"
    [] { status := [], timers := [] } [] [] failMidProvider rfl rfl
    (by decide) (by exact ⟨rfl, trivial⟩) (by decide)
  refine ⟨?_, ?_, hfast.1.1, hfast.1.2.1⟩
  · exact hfast.2.1 (by decide)
  · exact (hmid.2.2 (by decide)).1

/-- Unfolding the running count over a cons cell. -/
theorem countRunning_cons (t : SubAgentTask) (ts : List SubAgentTask) :
    countRunning (t :: ts)
      = (if t.status = TaskStatus.running then 1 else 0) + countRunning ts := by
  simp only [countRunning, List.filter_cons]
  by_cases h : t.status = TaskStatus.running
  · simp [h, Nat.add_comm]
  · simp [h]

/-- The running count distributes over append. -/
theorem countRunning_append (l1 l2 : List SubAgentTask) :
    countRunning (l1 ++ l2) = countRunning l1 + countRunning l2 := by
  simp [countRunning, List.filter_append]

/-- Finishing never turns a task into a running one. -/
theorem finishMap_running (tid : String) (b : Bool) (payload : String) (t : SubAgentTask) :
    (finishMap tid b payload t).status = TaskStatus.running →
      t.status = TaskStatus.running := by
  unfold finishMap
  by_cases hid : t.id = tid
  · cases b <;> simp [hid]
  · simp [hid]

/-- A finish step never increases the running count. -/
theorem countRunning_map_finish_le (tid : String) (b : Bool) (payload : String) :
    ∀ ts : List SubAgentTask,
      countRunning (ts.map (finishMap tid b payload)) ≤ countRunning ts := by
  intro ts
  induction ts with
  | nil => exact Nat.le_refl _
  | cons t l ih =>
      rw [List.map_cons, countRunning_cons, countRunning_cons]
      by_cases h : (finishMap tid b payload t).status = TaskStatus.running
      · rw [if_pos h, if_pos (finishMap_running tid b payload t h)]
        omega
      · rw [if_neg h]
        by_cases h2 : t.status = TaskStatus.running
        · rw [if_pos h2]; omega
        · rw [if_neg h2]; omega

/-- Finishing a task that is actually running strictly decreases the
running count. -/
theorem countRunning_map_finish_lt (tid : String) (b : Bool) (payload : String) :
    ∀ ts : List SubAgentTask,
      (∃ t ∈ ts, t.id = tid ∧ t.status = TaskStatus.running) →
      countRunning (ts.map (finishMap tid b payload)) < countRunning ts := by
  intro ts
  induction ts with
  | nil => intro hex; obtain ⟨t, ht, _⟩ := hex; simp at ht
  | cons t l ih =>
      intro hex
      obtain ⟨w, hw, hwid, hwrun⟩ := hex
      rw [List.map_cons, countRunning_cons, countRunning_cons]
      rcases List.mem_cons.mp hw with rfl | hw2
      · have hf : ¬ (finishMap tid b payload w).status = TaskStatus.running := by
          unfold finishMap
          cases b <;> simp [hwid]
        have hle := countRunning_map_finish_le tid b payload l
        rw [if_neg hf, if_pos hwrun]
        omega
      · have hlt := ih ⟨w, hw2, hwid, hwrun⟩
        by_cases h : (finishMap tid b payload t).status = TaskStatus.running
        · rw [if_pos h, if_pos (finishMap_running tid b payload t h)]
          omega
        · rw [if_neg h]
          by_cases h2 : t.status = TaskStatus.running
          · rw [if_pos h2]; omega
          · rw [if_neg h2]; omega

/-- Starting a fresh id leaves every existing task untouched. -/
theorem map_start_id (newId : String) :
    ∀ tasks : List SubAgentTask, (∀ t ∈ tasks, t.id ≠ newId) →
      tasks.map (fun t =>
          if t.id = newId then { t with status := TaskStatus.running } else t)
        = tasks := by
  intro tasks
  induction tasks with
  | nil => intro _; rfl
  | cons t ts ih =>
      intro h
      have ht := h t (List.mem_cons_self t ts)
      simp only [List.map_cons, if_neg ht]
      rw [ih (fun x hx => h x (List.mem_cons_of_mem t hx))]

/-- C6.  The concurrency ceiling of the sub-agent supervisor (fixed at
3): at 3 running tasks a further spawn is rejected with an error, leaving
the state — in particular the task map and the running count — unchanged
(nothing is queued); any single supervisor step from a state within the
ceiling stays within the ceiling, so the number of `running` tasks never
exceeds 3; and once a running task reaches a terminal status the running
count drops strictly below 3 and the next spawn succeeds. -/
theorem subAgentManager_ceiling
    (s : SubAgentState) (d pid newId tid payload : String) (b : Bool)
    (hmax : s.maxConcurrent = 3) :
    (runningCount s = 3 →
      spawn s d pid newId
        = Except.error ("Max concurrent sub-agents reached ("
            ++ toString s.maxConcurrent ++ "). Wait for a running task to complete.")
      ∧ applyEvent s (SubEvent.spawnTask d pid newId) = s)
    ∧ ((∀ t ∈ s.activeTasks, t.id ≠ newId) → runningCount s ≤ 3 →
        runningCount (applyEvent s (SubEvent.spawnTask d pid newId)) ≤ 3)
    ∧ (runningCount s ≤ 3 →
        runningCount (applyEvent s (SubEvent.finish tid b payload)) ≤ 3)
    ∧ (runningCount s ≤ 3 →
        (∃ t ∈ s.activeTasks, t.id = tid ∧ t.status = TaskStatus.running) →
        runningCount (finishTask s tid b payload) < 3
        ∧ ∃ s2 task, spawn (finishTask s tid b payload) d pid newId
            = Except.ok (s2, task)) := by
  refine ⟨?_, ?_, ?_, ?_⟩
  · intro h3
    have hcond : s.maxConcurrent ≤ runningCount s := by rw [hmax, h3]
    constructor
    · simp [spawn, if_pos hcond]
    · simp [applyEvent, spawn, if_pos hcond]
  · intro hfresh hle
    by_cases hcond : s.maxConcurrent ≤ runningCount s
    · simp only [applyEvent, spawn, if_pos hcond]
      exact hle
    · have hlt : runningCount s < 3 := by
        rw [hmax] at hcond
        omega
      have hmap := map_start_id newId s.activeTasks hfresh
      have hcr : countRunning s.activeTasks < 3 := hlt
      have hspawn : spawn s d pid newId
          = Except.ok ({ s with activeTasks := s.activeTasks
                ++ [{ id := newId, parentSessionId := pid, description := d
                      status := TaskStatus.pending }] },
              { id := newId, parentSessionId := pid, description := d
                status := TaskStatus.pending }) := by
        unfold spawn
        rw [if_neg hcond]
      simp only [applyEvent, hspawn, runningCount, startTask, List.map_append,
        countRunning_append, hmap]
      simp [countRunning_cons, countRunning]
      simp only [countRunning] at hcr
      omega
  · intro hle
    exact le_trans (countRunning_map_finish_le tid b payload s.activeTasks) hle
  · intro hle hex
    have hlt : runningCount (finishTask s tid b payload) < 3 :=
      lt_of_lt_of_le (countRunning_map_finish_lt tid b payload s.activeTasks hex) hle
    refine ⟨hlt, ?_⟩
    have hcond : ¬ ((finishTask s tid b payload).maxConcurrent
        ≤ runningCount (finishTask s tid b payload)) := by
      have hm : (finishTask s tid b payload).maxConcurrent = 3 := by
        simpa [finishTask] using hmax
      rw [hm]
      omega
    simp only [spawn, if_neg hcond]
    exact ⟨_, _, rfl⟩

/-- Closed witness for C6: at the ceiling a spawn is rejected and the
state unchanged; after one task finishes, the next spawn succeeds. -/
theorem subAgentManager_ceiling_witness :
    (spawn fullState "d" "p" "z"
        = Except.error ("Max concurrent sub-agents reached ("
            ++ toString fullState.maxConcurrent
            ++ "). Wait for a running task to complete.")
      ∧ applyEvent fullState (SubEvent.spawnTask "d" "p" "z") = fullState)
    ∧ (runningCount (finishTask fullState "a" true "done") < 3
      ∧ ∃ s2 task, spawn (finishTask fullState "a" true "done") "d" "p" "z"
          = Except.ok (s2, task)) := by
  have h := subAgentManager_ceiling fullState "d" "p" "z" "a" "done" true rfl
  exact ⟨h.1 (by decide), h.2.2.2 (by decide) (by decide)⟩
